import Mathlib

/-!
# Workout tracker (`script.js`): data model and state manager

A shallow embedding of the `Workout` / `Running` / `Cycling` classes and of the
`App` methods that create, edit, delete, sort and reload workouts, followed by
theorems about them.

Conventions of the embedding.

* A JavaScript number is a `JSNum`: a finite double carried as the rational it
  denotes, or one of `NaN`, `+Infinity`, `-Infinity`.  A quotient is rounded to
  the nearest double (`roundDouble`), with overflow to an infinity and underflow
  to zero.  The sign of zero is not modelled: a zero is taken as `+0`.
* An object of the workout array is a `Workout` record.  Properties that only one
  of the two classes defines (`cadence`, `pace`, `elevationGain`, `speed`) are
  optional: `none` stands for an absent property.
* Mutation of an object held by the array is a replacement of the array slot that
  holds it.
* DOM rendering, the Leaflet map, `alert`, `console.log`, the write to
  `localStorage` and `location.reload()` are not part of the state that the
  theorems talk about and are left out.
-/

namespace Mapty

/-! ## Numbers -/

/-- A JavaScript number, finite values being exact rationals. -/
inductive JSNum where
  | fin (q : ℚ)
  | nan
  | posInf
  | negInf
deriving DecidableEq

/-- The power `2 ^ e` for an integer exponent, as a rational. -/
def pow2 (e : Int) : ℚ :=
  if 0 ≤ e then ((2 ^ e.toNat : Nat) : ℚ) else 1 / ((2 ^ (-e).toNat : Nat) : ℚ)

/-- The integer `L` with `2 ^ L ≤ q < 2 ^ (L + 1)`, for a positive rational `q`: the
difference of the bit lengths of numerator and denominator, or one less. -/
def floorLog2 (q : ℚ) : Int :=
  let k : Int := (Nat.log2 q.num.natAbs : Int) - (Nat.log2 q.den : Int)
  if pow2 k ≤ q then k else k - 1

/-- The integer nearest to a rational, the even one of the two when it lies half way
between them. -/
def roundHalfEven (x : ℚ) : Int :=
  let f : Int := Int.floor x
  let r : ℚ := x - f
  if r < 1 / 2 then f else if 1 / 2 < r then f + 1 else if f % 2 = 0 then f else f + 1

/-- The double nearest to a positive rational `q` (IEEE 754 binary64, round to nearest, ties
to even): the significand has 53 bits at the exponent of `q`, the exponent of the last bit
is at least `-1074` (subnormal range), and a result of `2 ^ 1024` or more is `+Infinity`. -/
def roundDoublePos (q : ℚ) : JSNum :=
  let e : Int := max (floorLog2 q - 52) (-1074)
  let m : Int := roundHalfEven (q / pow2 e)
  let v : ℚ := m * pow2 e
  if pow2 1024 ≤ v then JSNum.posInf else JSNum.fin v

/-- The double nearest to a rational: zero for zero, and by symmetry for a negative one. -/
def roundDouble (q : ℚ) : JSNum :=
  if q = 0 then JSNum.fin 0
  else if 0 < q then roundDoublePos q
  else
    match roundDoublePos (-q) with
    | JSNum.fin v => JSNum.fin (-v)
    | JSNum.posInf => JSNum.negInf
    | r => r

namespace JSNum

/-- The test `Number.isFinite(x)`. -/
def isFinite : JSNum → Bool
  | fin _ => true
  | _ => false

/-- The comparison `x > 0`. -/
def gtZero : JSNum → Bool
  | fin q => decide (0 < q)
  | posInf => true
  | _ => false

/-- The comparison `x <= 0` (false for `NaN`). -/
def leZero : JSNum → Bool
  | fin q => decide (q ≤ 0)
  | negInf => true
  | _ => false

/-- The quotient `x / y` of two doubles: the exact quotient of two finite values rounded to
the nearest double, an infinity or `NaN` for a zero divisor, and the usual results for
infinite operands. -/
def div : JSNum → JSNum → JSNum
  | nan, _ => nan
  | _, nan => nan
  | fin a, fin b =>
    if b = 0 then (if a = 0 then nan else if 0 < a then posInf else negInf)
    else roundDouble (a / b)
  | fin _, posInf => fin 0
  | fin _, negInf => fin 0
  | posInf, fin b => if b < 0 then negInf else posInf
  | negInf, fin b => if b < 0 then posInf else negInf
  | posInf, posInf => nan
  | posInf, negInf => nan
  | negInf, posInf => nan
  | negInf, negInf => nan

/-- The difference `x - y`, used by the sort comparators for its sign only; a finite
difference is carried exactly, its rounding to a double, which keeps the sign, is left
out. -/
def sub : JSNum → JSNum → JSNum
  | nan, _ => nan
  | _, nan => nan
  | fin a, fin b => fin (a - b)
  | fin _, posInf => negInf
  | fin _, negInf => posInf
  | posInf, fin _ => posInf
  | negInf, fin _ => negInf
  | posInf, posInf => nan
  | posInf, negInf => posInf
  | negInf, posInf => negInf
  | negInf, negInf => nan

end JSNum

/-! ## The `Workout` classes -/

/-- The prototype an object is linked to. -/
inductive Proto where
  | object
  | running
  | cycling
deriving DecidableEq

/-- What `_setDescription` reads from a `Date`: `getMonth()` and `getDate()`. -/
structure JSDate where
  month : Fin 12
  day : Nat
deriving DecidableEq

/-- The two clock reads of the `Workout` field initialisers:
`new Date()` and `Date.now()` (milliseconds). -/
structure Clock where
  date : JSDate
  now : Nat
deriving DecidableEq

/-- An object of the workout array. -/
structure Workout where
  proto : Proto
  date : JSDate
  id : String
  clicks : Nat
  coords : JSNum × JSNum
  distance : JSNum
  duration : JSNum
  type : String
  cadence : Option JSNum
  pace : Option JSNum
  elevationGain : Option JSNum
  speed : Option JSNum
  description : String
deriving DecidableEq

/-- The value of `s.slice(-10)`: the last ten characters of `s`, all of `s` when it is shorter. -/
def sliceLast10 (s : String) : String :=
  String.mk (s.data.drop (s.data.length - 10))

/-- The field initialiser `id = (Date.now() + '').slice(-10)`. -/
def Workout.newId (now : Nat) : String :=
  sliceLast10 (toString now)

/-- The table `months` of `_setDescription`. -/
def months : List String :=
  ["January", "February", "March", "April", "May", "June", "July", "August",
   "September", "October", "November", "December"]

/-- The string built by `_setDescription` from `this.type` and `this.date`. -/
def Workout._setDescription (type : String) (date : JSDate) : String :=
  String.mk ((type.data.take 1).map Char.toUpper ++ type.data.drop 1)
    ++ " on " ++ months.getD date.month.val "" ++ " " ++ toString date.day

/-- The method `calcPace`: `this.duration / this.distance`. -/
def Running.calcPace (w : Workout) : Workout :=
  { w with pace := some (JSNum.div w.duration w.distance) }

/-- The method `calcSpeed`: `this.distance / (this.duration / 60)`. -/
def Cycling.calcSpeed (w : Workout) : Workout :=
  { w with speed := some (JSNum.div w.distance (JSNum.div w.duration (JSNum.fin 60))) }

/-- The constructor `new Running(coords, distance, duration, cadence)`. -/
def Running.new (clk : Clock) (coords : JSNum × JSNum) (distance duration cadence : JSNum) :
    Workout :=
  let w : Workout :=
    { proto := Proto.running, date := clk.date, id := Workout.newId clk.now, clicks := 0,
      coords := coords, distance := distance, duration := duration, type := "running",
      cadence := some cadence, pace := none, elevationGain := none, speed := none,
      description := "" }
  let w := Running.calcPace w
  { w with description := Workout._setDescription w.type w.date }

/-- The constructor `new Cycling(coords, distance, duration, elevationGain)`. -/
def Cycling.new (clk : Clock) (coords : JSNum × JSNum) (distance duration elevationGain : JSNum) :
    Workout :=
  let w : Workout :=
    { proto := Proto.cycling, date := clk.date, id := Workout.newId clk.now, clicks := 0,
      coords := coords, distance := distance, duration := duration, type := "cycling",
      cadence := none, pace := none, elevationGain := some elevationGain, speed := none,
      description := "" }
  let w := Cycling.calcSpeed w
  { w with description := Workout._setDescription w.type w.date }

/-! ## Array helpers -/

/-- Strict equality `elem === value` between an object of the workout array and a string.
An object is never strictly equal to a primitive, so the result is `false` for every pair. -/
def strictEqualsObjStr (_elem : Workout) (_value : String) : Bool :=
  false

/-- The value of `Array.prototype.indexOf` on the workout array for a string argument:
the first index whose element is strictly equal to the argument, `-1` when there is none. -/
def indexOfStr : List Workout → String → Int
  | [], _ => -1
  | w :: ws, v =>
    if strictEqualsObjStr w v then 0
    else
      let r := indexOfStr ws v
      if r < 0 then -1 else r + 1

/-- The conversion `ToNumber(o)` of a workout object: the classes define neither `valueOf`
nor `toString`, so the object converts through the string `[object Object]` to `NaN`. -/
def toNumberObj (_o : Workout) : JSNum :=
  JSNum.nan

/-- The result type of the abstract operation `ToIntegerOrInfinity`. -/
inductive IntegerOrInfinity where
  | int (i : Int)
  | posInf
  | negInf
deriving DecidableEq

/-- The abstract operation `ToIntegerOrInfinity` on a number: `NaN` becomes `0`, a finite
value is truncated towards zero, an infinity is kept. -/
def toIntegerOrInfinity : JSNum → IntegerOrInfinity
  | JSNum.nan => IntegerOrInfinity.int 0
  | JSNum.posInf => IntegerOrInfinity.posInf
  | JSNum.negInf => IntegerOrInfinity.negInf
  | JSNum.fin q => IntegerOrInfinity.int (if 0 ≤ q then Int.floor q else Int.ceil q)

/-- The start position that `Array.prototype.splice` derives from its converted first
argument for an array of length `len`: a negative value counts from the end, and the result
is clamped to `0 .. len`. -/
def spliceStart (len : Nat) : IntegerOrInfinity → Nat
  | IntegerOrInfinity.negInf => 0
  | IntegerOrInfinity.posInf => len
  | IntegerOrInfinity.int r => if r < 0 then Int.toNat (len + r) else min (Int.toNat r) len

/-- The array left by `xs.splice(start, deleteCount, ...items)`, `start` already converted
by `ToIntegerOrInfinity`. -/
def splice (xs : List Workout) (start : IntegerOrInfinity) (deleteCount : Nat)
    (items : List Workout) : List Workout :=
  let actualStart := spliceStart xs.length start
  let actualDeleteCount := min deleteCount (xs.length - actualStart)
  xs.take actualStart ++ items ++ xs.drop (actualStart + actualDeleteCount)

/-- The slot and the object that `Array.prototype.find` returns for the test `p`: the first
element satisfying it, with its index; `none` stands for `undefined`. -/
def findSlot (p : Workout → Bool) : List Workout → Option (Nat × Workout)
  | [] => none
  | w :: ws => if p w then some (0, w) else (findSlot p ws).map (fun r => (r.1 + 1, r.2))

/-! ## The application state -/

/-- The mutable state of the program: the private fields `#workouts` and `#editingWorkoutId`
of `App` and the three module-level sort-direction flags. -/
structure AppState where
  workouts : List Workout
  editingWorkoutId : Option String
  sortTypeDirection : Bool
  sortDistanceDirection : Bool
  sortDurationDirection : Bool
deriving DecidableEq

/-- The state of a freshly constructed `App` before `_getLocalStorage` runs. -/
def AppState.init : AppState :=
  { workouts := [], editingWorkoutId := none, sortTypeDirection := true,
    sortDistanceDirection := true, sortDurationDirection := true }

/-- The method `_deleteWorkout(workout)`, called by the delete-button handler with the string
`dataset.id`: `indexOf` on the array, then `splice(index, 1)`. -/
def App._deleteWorkout (s : AppState) (workout : String) : AppState :=
  let index := indexOfStr s.workouts workout
  { s with workouts := splice s.workouts (IntegerOrInfinity.int index) 1 [] }

/-! ## The form and `_newWorkout` -/

/-- The two options of the `.form__input--type` select element. -/
inductive WorkoutType where
  | running
  | cycling
deriving DecidableEq

/-- The string `inputType.value` of an option. -/
def WorkoutType.value : WorkoutType → String
  | WorkoutType.running => "running"
  | WorkoutType.cycling => "cycling"

/-- What a submit of the form reads: the selected type, the four inputs after their
conversion to numbers (`+input.value`, `Number(input.value)`), and the position
`this.#mapEvent.latlng` of the map click that opened the form. -/
structure Form where
  type : WorkoutType
  distance : JSNum
  duration : JSNum
  cadence : JSNum
  elevation : JSNum
  latlng : JSNum × JSNum
deriving DecidableEq

/-- An exception thrown by a handler. -/
inductive JSError where
  | typeError
deriving DecidableEq

/-- The truthiness test `if (this.#editingWorkoutId)`: an absent value and the empty string
are falsy. -/
def truthyId : Option String → Bool
  | none => false
  | some id => id != ""

/-- The local function `validInputs` applied to a list of numbers. -/
def validInputs (inputs : List JSNum) : Bool :=
  inputs.all (fun inp => inp.isFinite)

/-- The local function `allPositive` applied to a list of numbers. -/
def allPositive (inputs : List JSNum) : Bool :=
  inputs.all (fun inp => inp.gtZero)

/-- The assignments of the editing branch to the object found by `find`: distance and
duration from the form, cadence when the object is of type running, elevation gain when it
is of type cycling. -/
def App.assignInputs (found : Workout) (f : Form) : Workout :=
  let w1 := { found with distance := f.distance, duration := f.duration }
  let w2 := if w1.type == "running" then { w1 with cadence := some f.cadence } else w1
  if w2.type == "cycling" then { w2 with elevationGain := some f.elevation } else w2

/-- The `switch` of the editing branch: the object constructed for the selected type from
the coordinates, distance and duration of the edited object. -/
def App.constructForType (workout : Workout) (f : Form) (clk : Clock) : Workout :=
  match f.type with
  | WorkoutType.running =>
    Running.new clk workout.coords workout.distance workout.duration f.cadence
  | WorkoutType.cycling =>
    Cycling.new clk workout.coords workout.distance workout.duration f.elevation

/-- The editing branch of `_newWorkout`, entered when `#editingWorkoutId` is truthy.
The object found by `find` is updated in its slot; when the selected type differs from the
object's type a new object is constructed and `splice(workout, 1, newWorkout)` is called with
the found object itself as the start argument.  A failed `find` makes the first assignment
throw. -/
def App.editBranch (s : AppState) (editingId : String) (f : Form) (clk : Clock) :
    Except JSError AppState :=
  match findSlot (fun workout => workout.id == editingId) s.workouts with
  | some (i, found) =>
    let workout := App.assignInputs found f
    let ws := s.workouts.set i workout
    let ws :=
      if f.type.value != workout.type then
        splice ws (toIntegerOrInfinity (toNumberObj workout)) 1
          [App.constructForType workout f clk]
      else ws
    Except.ok { s with workouts := ws, editingWorkoutId := none }
  | none => Except.error JSError.typeError

/-- The creating branch of `_newWorkout`: validation, construction and `push`; a rejected
input returns after the alert without touching the state. -/
def App.createBranch (s : AppState) (f : Form) (clk : Clock) : AppState :=
  match f.type with
  | WorkoutType.running =>
    if !validInputs [f.distance, f.duration, f.cadence]
        || !allPositive [f.distance, f.duration, f.cadence] then s
    else
      { s with workouts :=
          s.workouts ++ [Running.new clk f.latlng f.distance f.duration f.cadence] }
  | WorkoutType.cycling =>
    if !validInputs [f.distance, f.duration, f.elevation]
        || !allPositive [f.distance, f.duration] then s
    else
      { s with workouts :=
          s.workouts ++ [Cycling.new clk f.latlng f.distance f.duration f.elevation] }

/-- The submit handler `_newWorkout`. -/
def App._newWorkout (s : AppState) (f : Form) (clk : Clock) : Except JSError AppState :=
  if truthyId s.editingWorkoutId then
    App.editBranch s (s.editingWorkoutId.getD "") f clk
  else
    Except.ok (App.createBranch s f clk)

/-- The handler `_editWorkout(id)`: when a workout with this id exists its id is stored in
`#editingWorkoutId`, otherwise nothing changes. -/
def App._editWorkout (s : AppState) (id : String) : AppState :=
  match findSlot (fun workout => workout.id == id) s.workouts with
  | none => s
  | some (_, editingWorkout) => { s with editingWorkoutId := some editingWorkout.id }

/-! ## Sorting -/

/-- The decision of `Array.prototype.sort` for a comparator result `v`: `NaN` counts as `0`,
and the first argument may stay in front when the value is not positive. -/
def sortKeeps (v : JSNum) : Bool :=
  match v with
  | JSNum.nan => true
  | _ => v.leZero

/-- The array produced by `Array.prototype.sort(comparefn)`: the sort is stable, which for a
consistent comparator determines the result; it is computed here by insertion from the
right.  For an inconsistent comparator the language leaves the order to the engine and
this is one admissible result. -/
def arraySort (comparefn : Workout → Workout → JSNum) (xs : List Workout) : List Workout :=
  xs.insertionSort (fun a b => sortKeeps (comparefn a b) = true)

/-- The value of `a.localeCompare(b)` taken as the sign of the code-unit order, which is
what locale collation gives on the lowercase type tags. -/
def localeCompare (a b : String) : JSNum :=
  if a < b then JSNum.fin (-1) else if a = b then JSNum.fin 0 else JSNum.fin 1

/-- The handler `_sortType`: returns the new state and the sorted copy `activitiesCopy`. -/
def App._sortType (s : AppState) : AppState × List Workout :=
  let activitiesCopy := s.workouts
  let activitiesCopy :=
    if !s.sortTypeDirection then arraySort (fun a b => localeCompare a.type b.type) activitiesCopy
    else arraySort (fun a b => localeCompare b.type a.type) activitiesCopy
  ({ s with sortTypeDirection := !s.sortTypeDirection }, activitiesCopy)

/-- The handler `_sortDuration`: returns the new state and the sorted copy. -/
def App._sortDuration (s : AppState) : AppState × List Workout :=
  let activitiesCopy := s.workouts
  let activitiesCopy :=
    if !s.sortDurationDirection then
      arraySort (fun a b => JSNum.sub b.duration a.duration) activitiesCopy
    else arraySort (fun a b => JSNum.sub a.duration b.duration) activitiesCopy
  ({ s with sortDurationDirection := !s.sortDurationDirection }, activitiesCopy)

/-- The handler `_sortDistance`: returns the new state and the sorted copy. -/
def App._sortDistance (s : AppState) : AppState × List Workout :=
  let activitiesCopy := s.workouts
  let activitiesCopy :=
    if !s.sortDistanceDirection then
      arraySort (fun a b => JSNum.sub b.distance a.distance) activitiesCopy
    else arraySort (fun a b => JSNum.sub a.distance b.distance) activitiesCopy
  ({ s with sortDistanceDirection := !s.sortDistanceDirection }, activitiesCopy)

/-- A click on one of the three sort buttons. -/
inductive SortCall where
  | type
  | distance
  | duration
deriving DecidableEq

/-- The state after one sort call. -/
def App.sortCall (s : AppState) : SortCall → AppState
  | SortCall.type => (App._sortType s).1
  | SortCall.distance => (App._sortDistance s).1
  | SortCall.duration => (App._sortDuration s).1

/-- The state after a series of sort calls. -/
def App.sortCalls (s : AppState) (calls : List SortCall) : AppState :=
  calls.foldl App.sortCall s

/-! ## Loading -/

/-- The method `_getLocalStorage`, given the value parsed from the `workouts` item
(`none` for `null`): every entry is linked to `Running.prototype` when its type is
`running` and to `Cycling.prototype` otherwise, and the mapped array becomes `#workouts`. -/
def App._getLocalStorage (s : AppState) (data : Option (List Workout)) : AppState :=
  match data with
  | none => s
  | some data =>
    { s with workouts :=
        data.map (fun work =>
          if work.type == "running" then { work with proto := Proto.running }
          else { work with proto := Proto.cycling }) }

/-! ## Runs of the program -/

/-- A user action that changes the state: a submit of the form, together with the clock that
a construction triggered by it reads, or a click on the edit button of the workout with the
given id. -/
inductive Action where
  | submit (f : Form) (clk : Clock)
  | edit (id : String)
deriving DecidableEq

/-- The state after one action; a handler that throws leaves the state as it was. -/
def App.step (s : AppState) : Action → AppState
  | Action.submit f clk =>
    match App._newWorkout s f clk with
    | Except.ok s' => s'
    | Except.error _ => s
  | Action.edit id => App._editWorkout s id

/-- The state after a series of actions. -/
def App.run (s : AppState) (actions : List Action) : AppState :=
  actions.foldl App.step s

/-- Whether a submit of the form in state `s` calls a constructor, and so reads the clock:
in the editing branch when the object is found and the selected type differs from its type,
in the creating branch when the inputs pass the guard. -/
def App.constructs (s : AppState) (f : Form) : Bool :=
  if truthyId s.editingWorkoutId then
    match findSlot (fun workout => workout.id == s.editingWorkoutId.getD "") s.workouts with
    | some (_, found) => f.type.value != (App.assignInputs found f).type
    | none => false
  else
    match f.type with
    | WorkoutType.running =>
      !(!validInputs [f.distance, f.duration, f.cadence]
        || !allPositive [f.distance, f.duration, f.cadence])
    | WorkoutType.cycling =>
      !(!validInputs [f.distance, f.duration, f.elevation]
        || !allPositive [f.distance, f.duration])

/-- The millisecond clock readings observed at the constructions of a run from state `s`,
in order: the reading of each submit that calls a constructor. -/
def constructionReadings (s : AppState) : List Action → List Nat
  | [] => []
  | Action.submit f clk :: actions =>
    (if App.constructs s f then [clk.now] else [])
      ++ constructionReadings (App.step s (Action.submit f clk)) actions
  | Action.edit id :: actions => constructionReadings (App.step s (Action.edit id)) actions

/-! ## Properties used in the statements -/

/-- A number that is finite. -/
def JSNum.Finite : JSNum → Prop
  | JSNum.fin _ => True
  | _ => False

/-- A number that is finite and strictly positive. -/
def JSNum.FinitePositive : JSNum → Prop
  | JSNum.fin q => 0 < q
  | _ => False

/-- The creating branch accepts a running form: distance, duration and cadence are finite
and strictly positive. -/
def Form.ValidRunning (f : Form) : Prop :=
  f.distance.FinitePositive ∧ f.duration.FinitePositive ∧ f.cadence.FinitePositive

/-- The creating branch accepts a cycling form: distance and duration are finite and strictly
positive, the elevation gain is finite. -/
def Form.ValidCycling (f : Form) : Prop :=
  f.distance.FinitePositive ∧ f.duration.FinitePositive ∧ f.elevation.Finite

/-- The derived metric of an object agrees with its current distance and duration:
the pace of a running workout, the speed of a cycling workout. -/
def Workout.MetricFresh (w : Workout) : Prop :=
  (w.type = "running" → w.pace = some (JSNum.div w.duration w.distance)) ∧
  (w.type = "cycling" →
    w.speed = some (JSNum.div w.distance (JSNum.div w.duration (JSNum.fin 60))))

/-- An entry carries the field that its type requires: `cadence` for a running entry,
`elevationGain` for any other. -/
def Workout.hasRequiredField (w : Workout) : Bool :=
  if w.type == "running" then w.cadence.isSome else w.elevationGain.isSome

/-- A rational that a double denotes exactly: an integer of magnitude below `2 ^ 53` times
a power of two with exponent from `-1074` to `971`. -/
def IsDouble (q : ℚ) : Prop :=
  ∃ (m e : Int), |m| < 2 ^ 53 ∧ -1074 ≤ e ∧ e ≤ 971 ∧ q = (m : ℚ) * (2 : ℚ) ^ e

/-- The place of a number in the order of the extended rationals: `-Infinity` below every
finite value and `+Infinity` above.  `NaN` has no place in that order and is sent to the
bottom; the statements that use the rank exclude it. -/
def JSNum.rank : JSNum → WithBot (WithTop ℚ)
  | JSNum.fin q => ((q : WithTop ℚ) : WithBot (WithTop ℚ))
  | JSNum.posInf => ((⊤ : WithTop ℚ) : WithBot (WithTop ℚ))
  | JSNum.negInf => ⊥
  | JSNum.nan => ⊥

/-- The decimal digits that `toString` prints for a number, lowest first. -/
def printedDigits (n : Nat) : List Nat :=
  if n = 0 then [0] else Nat.digits 10 n

/-! ## Sample data -/

/-- A clock reading. -/
def exClockA : Clock := { date := { month := 4, day := 17 }, now := 1700000000001 }

/-- A later clock reading. -/
def exClockB : Clock := { date := { month := 4, day := 18 }, now := 1700000000002 }

/-- A third clock reading. -/
def exClockC : Clock := { date := { month := 4, day := 19 }, now := 1700000000003 }

/-- A running workout of 5 km in 30 min, id `0000000001`. -/
def exRunA : Workout :=
  Running.new exClockA (JSNum.fin 10, JSNum.fin 20) (JSNum.fin 5) (JSNum.fin 30) (JSNum.fin 150)

/-- A running workout of 8 km in 40 min, id `0000000002`. -/
def exRunB : Workout :=
  Running.new exClockB (JSNum.fin 11, JSNum.fin 21) (JSNum.fin 8) (JSNum.fin 40) (JSNum.fin 160)

/-- A state holding the two sample workouts. -/
def exState : AppState :=
  { AppState.init with workouts := [exRunA, exRunB] }

/-- A valid running form: 5 km, 30 min, cadence 150. -/
def exFormRun : Form :=
  { type := WorkoutType.running, distance := JSNum.fin 5, duration := JSNum.fin 30,
    cadence := JSNum.fin 150, elevation := JSNum.fin 0, latlng := (JSNum.fin 10, JSNum.fin 20) }

/-- A cycling form: 5 km, 20 min, elevation gain 100. -/
def exFormCyc : Form :=
  { type := WorkoutType.cycling, distance := JSNum.fin 5, duration := JSNum.fin 20,
    cadence := JSNum.fin 0, elevation := JSNum.fin 100, latlng := (JSNum.fin 0, JSNum.fin 0) }

/-- A running form that doubles the distance of the first sample workout: 10 km, 30 min. -/
def exFormRunEdit : Form :=
  { type := WorkoutType.running, distance := JSNum.fin 10, duration := JSNum.fin 30,
    cadence := JSNum.fin 150, elevation := JSNum.fin 0, latlng := (JSNum.fin 0, JSNum.fin 0) }

/-- Two records of equal distance, ids `0000000001` and `0000000002`. -/
def exTieState : AppState :=
  { AppState.init with workouts := [exRunA, { exRunB with distance := JSNum.fin 5 }] }

/-- The clock reading `10 ^ 10` ms after the first sample reading. -/
def exClockLate : Clock := { date := { month := 7, day := 11 }, now := 1710000000001 }

/-- A clock reading more than `10 ^ 10` ms after the first sample reading. -/
def exClockLate2 : Clock := { date := { month := 7, day := 11 }, now := 1710000000002 }

/-- A running form with distance zero, which the creating branch rejects. -/
def exFormBad : Form :=
  { type := WorkoutType.running, distance := JSNum.fin 0, duration := JSNum.fin 30,
    cadence := JSNum.fin 150, elevation := JSNum.fin 0, latlng := (JSNum.fin 10, JSNum.fin 20) }

/-- A persisted running entry without the `cadence` property. -/
def exEntryNoCadence : Workout :=
  { exRunA with proto := Proto.object, cadence := none }

/-- A persisted running entry with all its properties. -/
def exEntryGood : Workout :=
  { exRunB with proto := Proto.object }

/-! # Theorems -/

/-! ## Rounding to a double -/

/-- The function `pow2` is the power of two with an integer exponent. -/
theorem pow2_eq_zpow (e : Int) : pow2 e = (2 : ℚ) ^ e := by
  unfold pow2
  split
  · next h =>
    rw [Nat.cast_pow, Nat.cast_ofNat, ← zpow_natCast, Int.toNat_of_nonneg h]
  · next h =>
    have h2 : 0 ≤ -e := by omega
    rw [Nat.cast_pow, Nat.cast_ofNat, ← zpow_natCast, Int.toNat_of_nonneg h2, zpow_neg,
      one_div, inv_inv]

/-- The power of two at the exponent found by `floorLog2` is at most the number. -/
theorem zpow_floorLog2_le (q : ℚ) (hq : 0 < q) : (2 : ℚ) ^ floorLog2 q ≤ q := by
  unfold floorLog2
  simp only
  split
  · next h => rwa [pow2_eq_zpow] at h
  · have hn : 0 < q.num := Rat.num_pos.mpr hq
    have hn0 : q.num.natAbs ≠ 0 := by omega
    have h1 : 2 ^ Nat.log2 q.num.natAbs ≤ q.num.natAbs := Nat.log2_self_le hn0
    have h2 : q.den < 2 ^ (Nat.log2 q.den + 1) := Nat.lt_log2_self
    have hq2 : q = (q.num.natAbs : ℚ) / (q.den : ℚ) := by
      have hcast : ((q.num.natAbs : Int) : ℚ) = (q.num : ℚ) := by
        rw [Int.natAbs_of_nonneg hn.le]
      rw [← Int.cast_natCast, hcast]
      exact (Rat.num_div_den q).symm
    have hden : (0 : ℚ) < q.den := by exact_mod_cast q.den_pos
    have e1 : ((Nat.log2 q.num.natAbs : Int) - (Nat.log2 q.den : Int) - 1)
        = (Nat.log2 q.num.natAbs : Int) - ((Nat.log2 q.den + 1 : Nat) : Int) := by
      push_cast
      ring
    rw [e1, zpow_sub₀ (by norm_num), zpow_natCast, zpow_natCast]
    have h1q : ((2 : ℚ) ^ Nat.log2 q.num.natAbs) ≤ (q.num.natAbs : ℚ) := by exact_mod_cast h1
    have h2q : (q.den : ℚ) ≤ (2 : ℚ) ^ (Nat.log2 q.den + 1) := by exact_mod_cast h2.le
    conv_rhs => rw [hq2]
    exact div_le_div₀ (by positivity) h1q hden h2q

/-- Rounding to the nearest integer leaves an integer as it is. -/
theorem roundHalfEven_intCast (k : Int) : roundHalfEven (k : ℚ) = k := by
  unfold roundHalfEven
  simp

/-- A positive rational that a double denotes is rounded to itself. -/
theorem roundDoublePos_of_isDouble (m e : Int) (hm0 : 0 < m) (hm : m < 2 ^ 53)
    (he1 : -1074 ≤ e) (he2 : e ≤ 971) :
    roundDoublePos ((m : ℚ) * (2 : ℚ) ^ e) = JSNum.fin ((m : ℚ) * (2 : ℚ) ^ e) := by
  have h2pos : ∀ z : Int, (0 : ℚ) < (2 : ℚ) ^ z := fun z => zpow_pos (by norm_num) z
  have hmq : (0 : ℚ) < (m : ℚ) := by exact_mod_cast hm0
  have hq : (0 : ℚ) < (m : ℚ) * (2 : ℚ) ^ e := mul_pos hmq (h2pos e)
  have hmlt : (m : ℚ) < (2 : ℚ) ^ (53 : Int) := by
    have h53 : ((2 ^ 53 : Int) : ℚ) = (2 : ℚ) ^ (53 : Int) := by norm_num
    rw [← h53]
    exact_mod_cast hm
  have hqlt : (m : ℚ) * (2 : ℚ) ^ e < (2 : ℚ) ^ (53 + e) := by
    rw [zpow_add₀ (by norm_num)]
    exact mul_lt_mul_of_pos_right hmlt (h2pos e)
  have hL : floorLog2 ((m : ℚ) * (2 : ℚ) ^ e) < 53 + e := by
    have h := lt_of_le_of_lt (zpow_floorLog2_le _ hq) hqlt
    exact (zpow_lt_zpow_iff_right₀ (by norm_num)).mp h
  set E : Int := max (floorLog2 ((m : ℚ) * (2 : ℚ) ^ e) - 52) (-1074) with hE
  have hEe : E ≤ e := by
    rw [hE]
    exact max_le (by omega) he1
  obtain ⟨n, hn⟩ := Int.eq_ofNat_of_zero_le (by omega : 0 ≤ e - E)
  have hquot : (m : ℚ) * (2 : ℚ) ^ e / (2 : ℚ) ^ E = ((m * 2 ^ n : Int) : ℚ) := by
    rw [mul_div_assoc, ← zpow_sub₀ (by norm_num), hn, zpow_natCast]
    push_cast
    ring
  have hback : ((m * 2 ^ n : Int) : ℚ) * (2 : ℚ) ^ E = (m : ℚ) * (2 : ℚ) ^ e := by
    rw [← hquot]
    field_simp
  unfold roundDoublePos
  simp only [← hE, pow2_eq_zpow, hquot, roundHalfEven_intCast, hback]
  have hnot : ¬ (2 : ℚ) ^ (1024 : Int) ≤ (m : ℚ) * (2 : ℚ) ^ e := by
    rw [not_le]
    refine lt_of_lt_of_le hqlt ?_
    exact zpow_le_zpow_right₀ (by norm_num) (by omega)
  rw [if_neg hnot]

/-- A rational that a double denotes is rounded to itself. -/
theorem roundDouble_of_isDouble (q : ℚ) (h : IsDouble q) : roundDouble q = JSNum.fin q := by
  obtain ⟨m, e, hm, he1, he2, rfl⟩ := h
  have h2pos : (0 : ℚ) < (2 : ℚ) ^ e := zpow_pos (by norm_num) e
  rw [abs_lt] at hm
  unfold roundDouble
  rcases lt_trichotomy m 0 with hneg | hzero | hpos
  · have hq : (m : ℚ) * (2 : ℚ) ^ e < 0 :=
      mul_neg_of_neg_of_pos (by exact_mod_cast hneg) h2pos
    rw [if_neg hq.ne, if_neg (not_lt.mpr hq.le)]
    have hneg2 : -((m : ℚ) * (2 : ℚ) ^ e) = ((-m : Int) : ℚ) * (2 : ℚ) ^ e := by
      push_cast
      ring
    rw [hneg2, roundDoublePos_of_isDouble (-m) e (by omega) (by omega) he1 he2]
    simp
  · subst hzero
    simp
  · have hq : 0 < (m : ℚ) * (2 : ℚ) ^ e := mul_pos (by exact_mod_cast hpos) h2pos
    rw [if_neg hq.ne', if_pos hq]
    exact roundDoublePos_of_isDouble m e hpos hm.2 he1 he2

/-- An integer of magnitude below `2 ^ 53` is denoted by a double. -/
theorem isDouble_intCast (m : Int) (h : |m| < 2 ^ 53) : IsDouble (m : ℚ) :=
  ⟨m, 0, h, by norm_num, by norm_num, by simp⟩

/-- A natural number below `2 ^ 53` is rounded to itself. -/
theorem roundDouble_natCast (n : Nat) (h : n < 2 ^ 53) :
    roundDouble (n : ℚ) = JSNum.fin (n : ℚ) := by
  have hd : IsDouble ((n : Int) : ℚ) := by
    apply isDouble_intCast
    rw [abs_of_nonneg (by omega)]
    exact_mod_cast h
  simpa using roundDouble_of_isDouble _ hd

/-- The quotient of two finite numbers with a divisor other than zero is the exact quotient
rounded to the nearest double. -/
theorem div_fin_fin (a b : ℚ) (hb : b ≠ 0) :
    JSNum.div (JSNum.fin a) (JSNum.fin b) = roundDouble (a / b) := by
  simp [JSNum.div, hb]


/-! ## Deletion -/

/-- Whatever string is passed, `indexOf` finds no index. -/
theorem indexOfStr_eq_neg_one (ws : List Workout) (v : String) : indexOfStr ws v = -1 := by
  induction ws with
  | nil => rfl
  | cons w ws ih => simp [indexOfStr, strictEqualsObjStr, ih]

/-- Whatever string is passed, `_deleteWorkout` removes the last element of the array. -/
theorem deleteWorkout_eq_dropLast (s : AppState) (workout : String) :
    (App._deleteWorkout s workout).workouts = s.workouts.dropLast := by
  simp only [App._deleteWorkout, indexOfStr_eq_neg_one, splice, spliceStart]
  rcases List.eq_nil_or_concat s.workouts with h | ⟨l, a, h⟩
  · simp [h]
  · rw [h]
    simp

/-- C1, evaluated on the array of the two sample workouts: deleting by the id of the first
one keeps the first one and removes the second, where the claim has the second one kept and
the first removed. -/
theorem deleteWorkout_by_first_id_removes_last :
    exRunA.id = "0000000001" ∧ exRunB.id = "0000000002" ∧
      (App._deleteWorkout exState "0000000001").workouts = [exRunA] ∧
      (App._deleteWorkout exState "0000000001").workouts ≠ [exRunB] := by
  refine ⟨by decide, by decide, rfl, ?_⟩
  intro h
  have h2 : (App._deleteWorkout exState "0000000001").workouts = [exRunA] := rfl
  rw [h2] at h
  have h3 : exRunA.id = exRunB.id := by rw [List.singleton_inj.mp h]
  exact absurd h3 (by decide)

/-- C2, evaluated on the array of the two sample workouts: deleting by an id that no record
carries shortens the array from two records to one, where the claim has it unchanged. -/
theorem deleteWorkout_absent_id_removes_last :
    (∀ w ∈ exState.workouts, w.id ≠ "9999999999") ∧
      exState.workouts.length = 2 ∧
      (App._deleteWorkout exState "9999999999").workouts = [exRunA] ∧
      (App._deleteWorkout exState "9999999999").workouts.length = 1 := by
  refine ⟨?_, rfl, rfl, rfl⟩
  intro w hw
  simp only [exState, AppState.init, List.mem_cons, List.mem_singleton, List.not_mem_nil,
    or_false] at hw
  rcases hw with rfl | rfl <;> decide

/-! ## Editing -/

/-- C3, evaluated on the array of the two sample workouts with the second one open for edit
and the type changed to cycling: the new cycling record replaces the element at index 0, the
first sample workout is gone, and the edited running record stays at index 1. -/
theorem newWorkout_type_change_replaces_index_zero :
    findSlot (fun w => w.id == "0000000002") exState.workouts = some (1, exRunB) ∧
      App._newWorkout (App._editWorkout exState "0000000002") exFormCyc exClockC =
        Except.ok
          { exState with
            workouts :=
              [Cycling.new exClockC exRunB.coords (JSNum.fin 5) (JSNum.fin 20) (JSNum.fin 100),
               { exRunB with distance := JSNum.fin 5, duration := JSNum.fin 20,
                             cadence := some (JSNum.fin 0) }] } :=
  ⟨rfl, rfl⟩

/-- C4, evaluated on a state reached by creating the first sample workout and editing it
without a change of type to 10 km in 30 min: the record keeps the pace 6 computed at
construction, while its new duration divided by its new distance is 3. -/
theorem newWorkout_same_type_edit_keeps_old_pace :
    App._newWorkout AppState.init exFormRun exClockA =
        Except.ok { AppState.init with workouts := [exRunA] } ∧
      App._newWorkout (App._editWorkout { AppState.init with workouts := [exRunA] } exRunA.id)
          exFormRunEdit exClockB =
        Except.ok { AppState.init with workouts := [{ exRunA with distance := JSNum.fin 10 }] } ∧
      ({ exRunA with distance := JSNum.fin 10 } : Workout).type = "running" ∧
      ({ exRunA with distance := JSNum.fin 10 } : Workout).pace = some (JSNum.fin 6) ∧
      JSNum.div ({ exRunA with distance := JSNum.fin 10 } : Workout).duration
          ({ exRunA with distance := JSNum.fin 10 } : Workout).distance = JSNum.fin 3 ∧
      ¬ ({ exRunA with distance := JSNum.fin 10 } : Workout).MetricFresh := by
  have h6 : roundDouble 6 = JSNum.fin 6 := by
    simpa using roundDouble_natCast 6 (by norm_num)
  have h3 : roundDouble 3 = JSNum.fin 3 := by
    simpa using roundDouble_natCast 3 (by norm_num)
  have hp : ({ exRunA with distance := JSNum.fin 10 } : Workout).pace = some (JSNum.fin 6) := by
    show some (JSNum.div (JSNum.fin 30) (JSNum.fin 5)) = some (JSNum.fin 6)
    rw [div_fin_fin 30 5 (by norm_num)]
    norm_num [h6]
  have hd : JSNum.div ({ exRunA with distance := JSNum.fin 10 } : Workout).duration
      ({ exRunA with distance := JSNum.fin 10 } : Workout).distance = JSNum.fin 3 := by
    show JSNum.div (JSNum.fin 30) (JSNum.fin 10) = JSNum.fin 3
    rw [div_fin_fin 30 10 (by norm_num)]
    norm_num [h3]
  refine ⟨rfl, rfl, rfl, hp, hd, ?_⟩
  intro h
  have h1 := h.1 rfl
  rw [hp, hd] at h1
  norm_num at h1

/-! ## Creation -/

/-- The two checks of the creating branch hold for a number exactly when it is finite and
strictly positive. -/
theorem isFinite_and_gtZero_iff (x : JSNum) :
    (x.isFinite = true ∧ x.gtZero = true) ↔ x.FinitePositive := by
  cases x <;> simp [JSNum.isFinite, JSNum.gtZero, JSNum.FinitePositive]

/-- The finiteness check holds for a number exactly when it is finite. -/
theorem isFinite_iff (x : JSNum) : x.isFinite = true ↔ x.Finite := by
  cases x <;> simp [JSNum.isFinite, JSNum.Finite]

/-- The guard of the running case lets a form through exactly when it is valid. -/
theorem running_guard_iff (f : Form) :
    ((!validInputs [f.distance, f.duration, f.cadence]
        || !allPositive [f.distance, f.duration, f.cadence]) = false) ↔ f.ValidRunning := by
  simp only [Form.ValidRunning, ← isFinite_and_gtZero_iff, validInputs, allPositive,
    List.all_cons, List.all_nil, Bool.and_true, Bool.or_eq_false_iff, Bool.not_eq_false',
    Bool.and_eq_true]
  tauto

/-- The guard of the cycling case lets a form through exactly when it is valid. -/
theorem cycling_guard_iff (f : Form) :
    ((!validInputs [f.distance, f.duration, f.elevation]
        || !allPositive [f.distance, f.duration]) = false) ↔ f.ValidCycling := by
  simp only [Form.ValidCycling, ← isFinite_and_gtZero_iff, ← isFinite_iff, validInputs,
    allPositive, List.all_cons, List.all_nil, Bool.and_true, Bool.or_eq_false_iff,
    Bool.not_eq_false', Bool.and_eq_true]
  tauto

/-- A state is never equal to itself with one more workout. -/
theorem append_singleton_state_ne (s : AppState) (w : Workout) :
    ({ s with workouts := s.workouts ++ [w] } : AppState) ≠ s := by
  intro h
  have h2 := congrArg (fun t => t.workouts.length) h
  simp at h2

/-- C5: when no workout is open for edit, a submit of the form with type running appends a
newly constructed running record at the end of the array exactly when distance, duration and
cadence are finite and strictly positive, and a submit with type cycling appends a newly
constructed cycling record exactly when distance and duration are finite and strictly
positive and the elevation gain is finite; in every other case the state is returned
unchanged. -/
theorem newWorkout_create_validates (s : AppState) (f : Form) (clk : Clock)
    (h : truthyId s.editingWorkoutId = false) :
    (f.type = WorkoutType.running →
      (App._newWorkout s f clk =
          Except.ok { s with workouts :=
            s.workouts ++ [Running.new clk f.latlng f.distance f.duration f.cadence] }
        ↔ f.ValidRunning) ∧
      (App._newWorkout s f clk = Except.ok s ↔ ¬ f.ValidRunning)) ∧
    (f.type = WorkoutType.cycling →
      (App._newWorkout s f clk =
          Except.ok { s with workouts :=
            s.workouts ++ [Cycling.new clk f.latlng f.distance f.duration f.elevation] }
        ↔ f.ValidCycling) ∧
      (App._newWorkout s f clk = Except.ok s ↔ ¬ f.ValidCycling)) := by
  constructor
  · intro ht
    by_cases hv : f.ValidRunning
    · have hg := (running_guard_iff f).mpr hv
      have hr : App._newWorkout s f clk = Except.ok { s with workouts :=
          s.workouts ++ [Running.new clk f.latlng f.distance f.duration f.cadence] } := by
        simp only [App._newWorkout, h, App.createBranch, ht, hg]
        rfl
      rw [hr]
      refine ⟨⟨fun _ => hv, fun _ => rfl⟩, ⟨fun h2 => ?_, fun h2 => absurd hv h2⟩⟩
      exact absurd (Except.ok.inj h2) (append_singleton_state_ne s _)
    · have hg : (!validInputs [f.distance, f.duration, f.cadence]
          || !allPositive [f.distance, f.duration, f.cadence]) = true := by
        rw [← Bool.not_eq_false]
        exact fun hc => hv ((running_guard_iff f).mp hc)
      have hr : App._newWorkout s f clk = Except.ok s := by
        simp only [App._newWorkout, h, App.createBranch, ht, hg]
        rfl
      rw [hr]
      refine ⟨⟨fun h2 => ?_, fun h2 => absurd h2 hv⟩, ⟨fun _ => hv, fun _ => rfl⟩⟩
      exact absurd (Except.ok.inj h2).symm (append_singleton_state_ne s _)
  · intro ht
    by_cases hv : f.ValidCycling
    · have hg := (cycling_guard_iff f).mpr hv
      have hr : App._newWorkout s f clk = Except.ok { s with workouts :=
          s.workouts ++ [Cycling.new clk f.latlng f.distance f.duration f.elevation] } := by
        simp only [App._newWorkout, h, App.createBranch, ht, hg]
        rfl
      rw [hr]
      refine ⟨⟨fun _ => hv, fun _ => rfl⟩, ⟨fun h2 => ?_, fun h2 => absurd hv h2⟩⟩
      exact absurd (Except.ok.inj h2) (append_singleton_state_ne s _)
    · have hg : (!validInputs [f.distance, f.duration, f.elevation]
          || !allPositive [f.distance, f.duration]) = true := by
        rw [← Bool.not_eq_false]
        exact fun hc => hv ((cycling_guard_iff f).mp hc)
      have hr : App._newWorkout s f clk = Except.ok s := by
        simp only [App._newWorkout, h, App.createBranch, ht, hg]
        rfl
      rw [hr]
      refine ⟨⟨fun h2 => ?_, fun h2 => absurd h2 hv⟩, ⟨fun _ => hv, fun _ => rfl⟩⟩
      exact absurd (Except.ok.inj h2).symm (append_singleton_state_ne s _)

/-- C5 at the empty initial state and the valid sample running form: the form is accepted
and the constructed record is the only element of the array. -/
theorem newWorkout_create_validates_witness :
    truthyId AppState.init.editingWorkoutId = false ∧
      exFormRun.type = WorkoutType.running ∧
      exFormRun.ValidRunning ∧
      App._newWorkout AppState.init exFormRun exClockA =
        Except.ok { AppState.init with workouts :=
          AppState.init.workouts ++
            [Running.new exClockA exFormRun.latlng exFormRun.distance exFormRun.duration
              exFormRun.cadence] } :=
  have hv : exFormRun.ValidRunning := by
    norm_num [Form.ValidRunning, JSNum.FinitePositive, exFormRun]
  ⟨rfl, rfl, hv,
    ((newWorkout_create_validates AppState.init exFormRun exClockA rfl).1 rfl).1.mpr hv⟩

/-- C6: for a distance and a duration that are greater than zero, and any coordinates,
cadence and elevation gain, a constructed running record has pace equal to the quotient
duration / distance, and a constructed cycling record has speed equal to the quotient
distance / (duration / 60), each quotient being the double division of the program.  When
distance and duration are the finite values `d` and `du`, the pace is the exact quotient
`du / d` rounded to the nearest double, and it is `du / d` itself when a double denotes that
value; the speed is `d / (du / 60)`, which is `60 * d / du`, when doubles denote `du / 60`
and `d / (du / 60)`. -/
theorem constructors_compute_metric (clk : Clock) (coords : JSNum × JSNum)
    (distance duration cadence elevationGain : JSNum)
    (hd : distance.gtZero = true) (hdu : duration.gtZero = true) :
    (Running.new clk coords distance duration cadence).pace
        = some (JSNum.div duration distance) ∧
      (Cycling.new clk coords distance duration elevationGain).speed
        = some (JSNum.div distance (JSNum.div duration (JSNum.fin 60))) ∧
      ∀ d du : ℚ, distance = JSNum.fin d → duration = JSNum.fin du →
        (Running.new clk coords distance duration cadence).pace
          = some (roundDouble (du / d)) ∧
        (IsDouble (du / d) →
          (Running.new clk coords distance duration cadence).pace
            = some (JSNum.fin (du / d))) ∧
        (IsDouble (du / 60) → IsDouble (d / (du / 60)) →
          (Cycling.new clk coords distance duration elevationGain).speed
              = some (JSNum.fin (d / (du / 60))) ∧
            (Cycling.new clk coords distance duration elevationGain).speed
              = some (JSNum.fin (60 * d / du))) := by
  refine ⟨rfl, rfl, ?_⟩
  intro d du h1 h2
  subst h1 h2
  have hd0 : 0 < d := by simpa [JSNum.gtZero] using hd
  have hdu0 : 0 < du := by simpa [JSNum.gtZero] using hdu
  have hpace : (Running.new clk coords (JSNum.fin d) (JSNum.fin du) cadence).pace
      = some (roundDouble (du / d)) := by
    show some (JSNum.div (JSNum.fin du) (JSNum.fin d)) = _
    rw [div_fin_fin du d hd0.ne']
  refine ⟨hpace, ?_, ?_⟩
  · intro hq
    rw [hpace, roundDouble_of_isDouble _ hq]
  · intro hq1 hq2
    have h60 : du / 60 ≠ 0 := by positivity
    have hspeed : (Cycling.new clk coords (JSNum.fin d) (JSNum.fin du) elevationGain).speed
        = some (JSNum.fin (d / (du / 60))) := by
      show some (JSNum.div (JSNum.fin d) (JSNum.div (JSNum.fin du) (JSNum.fin 60))) = _
      rw [div_fin_fin du 60 (by norm_num), roundDouble_of_isDouble _ hq1,
        div_fin_fin d (du / 60) h60, roundDouble_of_isDouble _ hq2]
    refine ⟨hspeed, ?_⟩
    rw [hspeed]
    congr 2
    field_simp
    ring

/-- C6 at 5 km in 30 min: the quotients 6, 1/2 and 10 are denoted by doubles, the pace
is 6 and the speed is 10. -/
theorem constructors_compute_metric_witness :
    (JSNum.fin 5).gtZero = true ∧ (JSNum.fin 30).gtZero = true ∧
      IsDouble ((30 : ℚ) / 5) ∧ IsDouble ((30 : ℚ) / 60) ∧ IsDouble ((5 : ℚ) / (30 / 60)) ∧
      (Running.new exClockA (JSNum.fin 10, JSNum.fin 20) (JSNum.fin 5) (JSNum.fin 30)
          (JSNum.fin 150)).pace = some (JSNum.fin (30 / 5)) ∧
      (Cycling.new exClockA (JSNum.fin 10, JSNum.fin 20) (JSNum.fin 5) (JSNum.fin 30)
          (JSNum.fin 100)).speed = some (JSNum.fin (60 * 5 / 30)) :=
  have h5 : (JSNum.fin 5).gtZero = true := by simp [JSNum.gtZero]
  have h30 : (JSNum.fin 30).gtZero = true := by simp [JSNum.gtZero]
  have q1 : IsDouble ((30 : ℚ) / 5) := ⟨6, 0, by norm_num, by norm_num, by norm_num, by norm_num⟩
  have q2 : IsDouble ((30 : ℚ) / 60) :=
    ⟨1, -1, by norm_num, by norm_num, by norm_num, by norm_num⟩
  have q3 : IsDouble ((5 : ℚ) / (30 / 60)) :=
    ⟨10, 0, by norm_num, by norm_num, by norm_num, by norm_num⟩
  have h := (constructors_compute_metric exClockA (JSNum.fin 10, JSNum.fin 20) (JSNum.fin 5)
      (JSNum.fin 30) (JSNum.fin 150) (JSNum.fin 100) h5 h30).2.2 5 30 rfl rfl
  ⟨h5, h30, q1, q2, q3, h.2.1 q1, (h.2.2 q2 q3).2⟩

/-! ## Sorting leaves the stored array alone -/

/-- One sort call changes neither the stored array nor the edit marker. -/
theorem sortCall_workouts (s : AppState) (c : SortCall) :
    (App.sortCall s c).workouts = s.workouts ∧
      (App.sortCall s c).editingWorkoutId = s.editingWorkoutId := by
  cases c <;> exact ⟨rfl, rfl⟩

/-- C7: after any finite series of calls of the three sort handlers the stored workout array
is the array from before the calls, element for element and in the same order, and the edit
marker is as before; what the calls change is the sort-direction flags. -/
theorem sortCalls_keep_workouts (s : AppState) (calls : List SortCall) :
    (App.sortCalls s calls).workouts = s.workouts ∧
      (App.sortCalls s calls).editingWorkoutId = s.editingWorkoutId := by
  induction calls generalizing s with
  | nil => exact ⟨rfl, rfl⟩
  | cons c cs ih =>
    have h := ih (App.sortCall s c)
    rw [(sortCall_workouts s c).1, (sortCall_workouts s c).2] at h
    exact h

/-! ## Loading -/

/-- C9, evaluated on a persisted collection of a running entry without `cadence` followed by
a complete entry: the loaded array has both entries, the first of them still of type running
and without cadence. -/
theorem getLocalStorage_keeps_entry_without_cadence :
    exEntryNoCadence.type = "running" ∧ exEntryNoCadence.cadence = none ∧
      exEntryNoCadence.hasRequiredField = false ∧
      (App._getLocalStorage AppState.init (some [exEntryNoCadence, exEntryGood])).workouts
        = [{ exEntryNoCadence with proto := Proto.running },
           { exEntryGood with proto := Proto.running }] ∧
      (App._getLocalStorage AppState.init (some [exEntryNoCadence, exEntryGood])).workouts
        ≠ ([exEntryNoCadence, exEntryGood].filter Workout.hasRequiredField).map
            (fun w => { w with proto := Proto.running }) := by
  refine ⟨rfl, rfl, rfl, rfl, ?_⟩
  intro h
  have h2 := congrArg List.length h
  exact absurd h2 (by decide)

/-- C9 as amended: load keeps every persisted entry at its position, also a running entry
without cadence; the loaded array has the length of the persisted collection, and the entry
at each index is the persisted entry at that index with only its prototype link set, to
`Running.prototype` when its type is `running` and to `Cycling.prototype` otherwise. -/
theorem getLocalStorage_keeps_every_entry (s : AppState) (data : List Workout) :
    (App._getLocalStorage s (some data)).workouts.length = data.length ∧
      ∀ (i : Nat) (e : Workout), data[i]? = some e →
        ∃ w, (App._getLocalStorage s (some data)).workouts[i]? = some w ∧
          { w with proto := e.proto } = e ∧
          (e.type = "running" → w.proto = Proto.running) ∧
          (e.type ≠ "running" → w.proto = Proto.cycling) := by
  refine ⟨by simp [App._getLocalStorage], ?_⟩
  intro i e he
  simp only [App._getLocalStorage, List.getElem?_map, he, Option.map_some']
  refine ⟨_, rfl, ?_, ?_, ?_⟩
  · split <;> rfl
  · intro ht
    simp [ht]
  · intro ht
    simp [ht]

/-- C9 as amended, at the persisted collection of a running entry without `cadence`
followed by a complete entry: the entry without cadence is loaded at index 0. -/
theorem getLocalStorage_keeps_every_entry_witness :
    [exEntryNoCadence, exEntryGood][0]? = some exEntryNoCadence ∧
      ∃ w, (App._getLocalStorage AppState.init
              (some [exEntryNoCadence, exEntryGood])).workouts[0]? = some w ∧
        { w with proto := exEntryNoCadence.proto } = exEntryNoCadence ∧
        (exEntryNoCadence.type = "running" → w.proto = Proto.running) ∧
        (exEntryNoCadence.type ≠ "running" → w.proto = Proto.cycling) :=
  ⟨rfl, (getLocalStorage_keeps_every_entry AppState.init [exEntryNoCadence, exEntryGood]).2
    0 exEntryNoCadence rfl⟩

/-! ## The two directions of the distance sort -/

/-- Insertion into a list depends on the order only through the pairs it compares. -/
theorem orderedInsert_congr {r r' : Workout → Workout → Prop} [DecidableRel r]
    [DecidableRel r'] (a : Workout) (l : List Workout) (h : ∀ b ∈ l, (r a b ↔ r' a b)) :
    List.orderedInsert r a l = List.orderedInsert r' a l := by
  induction l with
  | nil => rfl
  | cons b l ih =>
    have hb := h b (List.mem_cons_self _ _)
    have ih2 := ih (fun c hc => h c (List.mem_cons_of_mem _ hc))
    by_cases hr : r a b
    · simp [List.orderedInsert, hr, hb.mp hr]
    · have hr2 : ¬ r' a b := fun hc => hr (hb.mpr hc)
      simp [List.orderedInsert, hr, hr2, ih2]

/-- Insertion sort depends on the order only through the pairs of elements of the list. -/
theorem insertionSort_congr {r r' : Workout → Workout → Prop} [DecidableRel r]
    [DecidableRel r'] (l : List Workout) (h : ∀ a ∈ l, ∀ b ∈ l, (r a b ↔ r' a b)) :
    List.insertionSort r l = List.insertionSort r' l := by
  induction l with
  | nil => rfl
  | cons a l ih =>
    have ih2 := ih (fun x hx y hy => h x (List.mem_cons_of_mem _ hx) y (List.mem_cons_of_mem _ hy))
    simp only [List.insertionSort, ih2]
    apply orderedInsert_congr
    intro b hb
    rw [List.mem_insertionSort] at hb
    exact h a (List.mem_cons_self _ _) b (List.mem_cons_of_mem _ hb)

/-- For numbers other than `NaN`, the sort keeps `x` in front of `y` under the comparator
`x - y` exactly when the rank of `x` is at most the rank of `y`. -/
theorem sortKeeps_sub_iff (x y : JSNum) (hx : x ≠ JSNum.nan) (hy : y ≠ JSNum.nan) :
    sortKeeps (JSNum.sub x y) = true ↔ x.rank ≤ y.rank := by
  cases x <;> cases y <;>
    simp_all [sortKeeps, JSNum.sub, JSNum.leZero, JSNum.rank]

/-- Numbers other than `NaN` with the same rank are equal. -/
theorem rank_injective (x y : JSNum) (hx : x ≠ JSNum.nan) (hy : y ≠ JSNum.nan)
    (h : x.rank = y.rank) : x = y := by
  cases x <;> cases y <;> simp_all [JSNum.rank]

/-- Over an array whose distances are pairwise different numbers, none of them `NaN`, the
descending distance sort gives the reverse of what the ascending distance sort gives. -/
theorem arraySort_desc_eq_reverse_asc (l : List Workout)
    (hnan : ∀ w ∈ l, w.distance ≠ JSNum.nan)
    (hdist : l.Pairwise (fun a b => a.distance ≠ b.distance)) :
    arraySort (fun a b => JSNum.sub b.distance a.distance) l
      = (arraySort (fun a b => JSNum.sub a.distance b.distance) l).reverse := by
  have hasc : arraySort (fun a b => JSNum.sub a.distance b.distance) l
      = l.insertionSort (fun a b => a.distance.rank ≤ b.distance.rank) := by
    unfold arraySort
    apply insertionSort_congr
    intro a ha b hb
    exact sortKeeps_sub_iff _ _ (hnan a ha) (hnan b hb)
  have hdesc : arraySort (fun a b => JSNum.sub b.distance a.distance) l
      = l.insertionSort (fun a b => b.distance.rank ≤ a.distance.rank) := by
    unfold arraySort
    apply insertionSort_congr
    intro a ha b hb
    exact sortKeeps_sub_iff _ _ (hnan b hb) (hnan a ha)
  rw [hasc, hdesc]
  haveI tA : IsTotal Workout (fun a b => a.distance.rank ≤ b.distance.rank) :=
    ⟨fun a b => le_total _ _⟩
  haveI rA : IsTrans Workout (fun a b => a.distance.rank ≤ b.distance.rank) :=
    ⟨fun a b c hab hbc => le_trans hab hbc⟩
  haveI tD : IsTotal Workout (fun a b => b.distance.rank ≤ a.distance.rank) :=
    ⟨fun a b => le_total _ _⟩
  haveI rD : IsTrans Workout (fun a b => b.distance.rank ≤ a.distance.rank) :=
    ⟨fun a b c hab hbc => le_trans hbc hab⟩
  haveI aS : IsAntisymm Workout (fun a b => b.distance.rank < a.distance.rank) :=
    ⟨fun a b hab hba => absurd hab (lt_asymm hba)⟩
  have hne : l.Pairwise (fun a b => a.distance.rank ≠ b.distance.rank) := by
    refine List.Pairwise.imp_of_mem ?_ hdist
    intro a b ha hb hab hr
    exact hab (rank_injective _ _ (hnan a ha) (hnan b hb) hr)
  have hsymm : ∀ {x y : Workout}, x.distance.rank ≠ y.distance.rank →
      y.distance.rank ≠ x.distance.rank := fun h => Ne.symm h
  have pA := List.perm_insertionSort (fun a b : Workout => a.distance.rank ≤ b.distance.rank) l
  have pD := List.perm_insertionSort (fun a b : Workout => b.distance.rank ≤ a.distance.rank) l
  have sA := List.sorted_insertionSort (fun a b : Workout => a.distance.rank ≤ b.distance.rank) l
  have sD := List.sorted_insertionSort (fun a b : Workout => b.distance.rank ≤ a.distance.rank) l
  have nA := (pA.pairwise_iff hsymm).mpr hne
  have nD := (pD.pairwise_iff hsymm).mpr hne
  have sA2 : (l.insertionSort (fun a b => a.distance.rank ≤ b.distance.rank)).reverse.Pairwise
      (fun a b => b.distance.rank < a.distance.rank) := by
    rw [List.pairwise_reverse]
    exact (List.Pairwise.and sA nA).imp (fun h => lt_of_le_of_ne h.1 h.2)
  have sD2 : (l.insertionSort (fun a b => b.distance.rank ≤ a.distance.rank)).Pairwise
      (fun a b => b.distance.rank < a.distance.rank) :=
    (List.Pairwise.and sD nD).imp (fun h => lt_of_le_of_ne h.1 (Ne.symm h.2))
  exact List.eq_of_perm_of_sorted (pD.trans (pA.symm.trans (List.reverse_perm _).symm)) sD2 sA2

/-- C8, evaluated on an array of two records of equal distance: both directions of the
distance sort compute the same list, the records in their stored order, which is not the
reverse of itself. -/
theorem sortDistance_tie_not_reversed :
    (App._sortDistance exTieState).2 = exTieState.workouts ∧
      (App._sortDistance (App._sortDistance exTieState).1).2 = exTieState.workouts ∧
      (App._sortDistance (App._sortDistance exTieState).1).2
        ≠ (App._sortDistance exTieState).2.reverse := by
  have h1 : (App._sortDistance exTieState).2 = exTieState.workouts := by
    simp [App._sortDistance, exTieState, AppState.init, arraySort, exRunA, exRunB, Running.new,
      Running.calcPace, sortKeeps, JSNum.sub, JSNum.leZero]
  have h2 : (App._sortDistance (App._sortDistance exTieState).1).2 = exTieState.workouts := by
    simp [App._sortDistance, exTieState, AppState.init, arraySort, exRunA, exRunB, Running.new,
      Running.calcPace, sortKeeps, JSNum.sub, JSNum.leZero]
  refine ⟨h1, h2, ?_⟩
  rw [h1, h2]
  intro h
  have h3 : exRunA.id = ({ exRunB with distance := JSNum.fin 5 } : Workout).id := by
    have := congrArg (fun l => (l.head?).map Workout.id) h
    simpa [exTieState, AppState.init] using this
  exact absurd h3 (by decide)

/-- C8 as amended: over a stored array whose distances are pairwise different numbers, none
of them `NaN`, the list computed by one call of `_sortDistance` is the reverse of the list
computed by the call before it. -/
theorem sortDistance_reverse_of_distinct (s : AppState)
    (hnan : ∀ w ∈ s.workouts, w.distance ≠ JSNum.nan)
    (hdist : s.workouts.Pairwise (fun a b => a.distance ≠ b.distance)) :
    (App._sortDistance (App._sortDistance s).1).2 = (App._sortDistance s).2.reverse := by
  have h := arraySort_desc_eq_reverse_asc s.workouts hnan hdist
  cases hd : s.sortDistanceDirection
  · simp only [App._sortDistance, hd, Bool.not_false, Bool.not_true, if_true]
    rw [h, List.reverse_reverse]
    simp
  · simp only [App._sortDistance, hd, Bool.not_false, Bool.not_true, if_true]
    rw [h]
    simp

/-- C8 as amended, at the array of the two sample workouts of 5 km and 8 km. -/
theorem sortDistance_reverse_of_distinct_witness :
    (∀ w ∈ exState.workouts, w.distance ≠ JSNum.nan) ∧
      exState.workouts.Pairwise (fun a b => a.distance ≠ b.distance) ∧
      (App._sortDistance (App._sortDistance exState).1).2
        = (App._sortDistance exState).2.reverse := by
  have h1 : ∀ w ∈ exState.workouts, w.distance ≠ JSNum.nan := by
    intro w hw
    simp only [exState, AppState.init, List.mem_cons, List.mem_singleton, List.not_mem_nil,
      or_false] at hw
    rcases hw with rfl | rfl <;> simp [exRunA, exRunB, Running.new, Running.calcPace]
  have h2 : exState.workouts.Pairwise (fun a b => a.distance ≠ b.distance) := by
    simp [exState, AppState.init, exRunA, exRunB, Running.new, Running.calcPace]
  exact ⟨h1, h2, sortDistance_reverse_of_distinct exState h1 h2⟩

/-! ## Identifiers and the clock -/

/-- The character list built by the digit loop of `toString`, for a positive number and
enough fuel. -/
theorem toDigitsCore_eq_digits (fuel : Nat) :
    ∀ (n : Nat) (ds : List Char), 0 < n → n < fuel →
      Nat.toDigitsCore 10 fuel n ds = (Nat.digits 10 n).reverse.map Nat.digitChar ++ ds := by
  induction fuel with
  | zero => intro n ds _ h; omega
  | succ fuel ih =>
    intro n ds hn hf
    rw [Nat.digits_def' (by norm_num) hn]
    unfold Nat.toDigitsCore
    by_cases h0 : n / 10 = 0
    · simp [h0]
    · have hpos : 0 < n / 10 := Nat.pos_of_ne_zero h0
      have hlt : n / 10 < fuel := by omega
      simp only [h0, if_false]
      rw [ih (n / 10) _ hpos hlt]
      simp

/-- The characters of the decimal string of a number are its printed digits, highest
first. -/
theorem toString_data (n : Nat) :
    (toString n).data = (printedDigits n).reverse.map Nat.digitChar := by
  show Nat.toDigits 10 n = _
  unfold printedDigits Nat.toDigits
  by_cases h : n = 0
  · subst h
    rfl
  · rw [if_neg h, toDigitsCore_eq_digits (n + 1) n [] (Nat.pos_of_ne_zero h) (by omega)]
    simp

/-- Every printed digit is below ten. -/
theorem printedDigits_lt (n d : Nat) (h : d ∈ printedDigits n) : d < 10 := by
  unfold printedDigits at h
  split at h
  · simp at h
    omega
  · exact Nat.digits_lt_base (by norm_num) h

/-- The lowest `k` digits of a number carry its remainder modulo `10 ^ k`. -/
theorem ofDigits_take_digits (k : Nat) :
    ∀ n : Nat, Nat.ofDigits 10 ((Nat.digits 10 n).take k) = n % 10 ^ k := by
  induction k with
  | zero => intro n; simp [Nat.mod_one]
  | succ k ih =>
    intro n
    by_cases h : n = 0
    · subst h
      simp
    · rw [Nat.digits_def' (by norm_num) (Nat.pos_of_ne_zero h), List.take_succ_cons,
        Nat.ofDigits_cons, ih, pow_succ', Nat.mod_mul]

/-- The lowest ten printed digits of a number carry its remainder modulo `10 ^ 10`. -/
theorem ofDigits_take_printedDigits (n : Nat) :
    Nat.ofDigits 10 ((printedDigits n).take 10) = n % 10 ^ 10 := by
  unfold printedDigits
  split
  · next h => subst h; rfl
  · exact ofDigits_take_digits 10 n

/-- The characters of an id are the lowest ten printed digits of the clock reading, highest
first. -/
theorem newId_data (n : Nat) :
    (Workout.newId n).data = (((printedDigits n).take 10).reverse).map Nat.digitChar := by
  unfold Workout.newId sliceLast10
  simp only [toString_data, List.length_map, List.length_reverse]
  rw [List.reverse_take, List.map_drop]

/-- The digit character of a digit below ten has the code of `0` plus the digit. -/
theorem digitChar_toNat (d : Nat) (h : d < 10) : (Nat.digitChar d).toNat - 48 = d := by
  interval_cases d <;> rfl

/-- Reading the characters of digits back gives the digits. -/
theorem map_digitChar_decode (l : List Nat) (h : ∀ d ∈ l, d < 10) :
    (l.map Nat.digitChar).map (fun c => c.toNat - 48) = l := by
  induction l with
  | nil => rfl
  | cons d l ih =>
    simp only [List.map_cons]
    rw [digitChar_toNat d (h d (List.mem_cons_self _ _)),
      ih (fun x hx => h x (List.mem_cons_of_mem _ hx))]

/-- Two clock readings that give the same id agree modulo `10 ^ 10`. -/
theorem newId_eq_mod (a t : Nat) (h : Workout.newId a = Workout.newId t) :
    a % 10 ^ 10 = t % 10 ^ 10 := by
  have hd : (Workout.newId a).data = (Workout.newId t).data := by rw [h]
  rw [newId_data, newId_data] at hd
  have hd2 := congrArg (List.map (fun c : Char => c.toNat - 48)) hd
  rw [map_digitChar_decode, map_digitChar_decode] at hd2
  · have hd3 := List.reverse_injective hd2
    rw [← ofDigits_take_printedDigits a, ← ofDigits_take_printedDigits t, hd3]
  · intro d hd
    exact printedDigits_lt t d (List.mem_of_mem_take (List.mem_reverse.mp hd))
  · intro d hd
    exact printedDigits_lt a d (List.mem_of_mem_take (List.mem_reverse.mp hd))

/-- The object returned by `find` sits in the slot returned with it. -/
theorem findSlot_getElem (p : Workout → Bool) (ws : List Workout) (i : Nat) (w : Workout)
    (h : findSlot p ws = some (i, w)) : ws[i]? = some w := by
  induction ws generalizing i with
  | nil => simp [findSlot] at h
  | cons x xs ih =>
    unfold findSlot at h
    split at h
    · simp only [Option.some.injEq, Prod.mk.injEq] at h
      obtain ⟨rfl, rfl⟩ := h
      simp
    · cases hf : findSlot p xs with
      | none => simp [hf] at h
      | some r =>
        obtain ⟨j, v⟩ := r
        simp only [hf, Option.map_some', Option.some.injEq, Prod.mk.injEq] at h
        obtain ⟨rfl, rfl⟩ := h
        simpa using ih j hf

/-- Replacing an object by one of the same id leaves the list of ids as it was. -/
theorem map_id_set (ws : List Workout) (i : Nat) (w w' : Workout) (h : ws[i]? = some w)
    (hid : w'.id = w.id) : (ws.set i w').map Workout.id = ws.map Workout.id := by
  induction ws generalizing i with
  | nil => rfl
  | cons x xs ih =>
    cases i with
    | zero =>
      simp only [List.getElem?_cons_zero, Option.some.injEq] at h
      subst h
      simp [hid]
    | succ j =>
      simp only [List.getElem?_cons_succ] at h
      simp [ih j h]

/-- The call `splice(workout, 1, newWorkout)` with an object as start puts the new object
in front of the tail of the array. -/
theorem splice_obj_one (ws : List Workout) (o newWorkout : Workout) :
    splice ws (toIntegerOrInfinity (toNumberObj o)) 1 [newWorkout] = newWorkout :: ws.tail := by
  cases ws with
  | nil => rfl
  | cons x xs => simp [splice, spliceStart, toIntegerOrInfinity, toNumberObj]

/-- The assignments of the editing branch keep the id of the object. -/
theorem assignInputs_id (w : Workout) (f : Form) : (App.assignInputs w f).id = w.id := by
  unfold App.assignInputs
  simp only
  split <;> split <;> rfl

/-- The object constructed by the editing branch carries the id made from the clock. -/
theorem constructForType_id (w : Workout) (f : Form) (clk : Clock) :
    (App.constructForType w f clk).id = Workout.newId clk.now := by
  unfold App.constructForType
  cases f.type <;> rfl

/-- The ids after a successful run of the editing branch: the ids from before, or the id
made from the clock reading followed by all former ids but the first. -/
theorem editBranch_ids (s s' : AppState) (editingId : String) (f : Form) (clk : Clock)
    (h : App.editBranch s editingId f clk = Except.ok s') :
    s'.workouts.map Workout.id = s.workouts.map Workout.id ∨
      s'.workouts.map Workout.id
        = Workout.newId clk.now :: (s.workouts.map Workout.id).tail := by
  unfold App.editBranch at h
  cases hf : findSlot (fun workout => workout.id == editingId) s.workouts with
  | none => simp [hf] at h
  | some r =>
    obtain ⟨i, w⟩ := r
    have hget := findSlot_getElem _ _ _ _ hf
    have hset := map_id_set s.workouts i w (App.assignInputs w f) hget (assignInputs_id w f)
    rw [hf] at h
    have h2 := Except.ok.inj h
    subst h2
    by_cases hc : (f.type.value != (App.assignInputs w f).type) = true
    · right
      simp only [hc, if_true]
      rw [splice_obj_one, List.map_cons, constructForType_id, List.map_tail, hset]
    · left
      simp only [hc]
      exact hset

/-- The ids after the creating branch: unchanged, or extended at the end by the id made
from the clock reading. -/
theorem createBranch_ids (s : AppState) (f : Form) (clk : Clock) :
    (App.createBranch s f clk).workouts.map Workout.id = s.workouts.map Workout.id ∨
      (App.createBranch s f clk).workouts.map Workout.id
        = s.workouts.map Workout.id ++ [Workout.newId clk.now] := by
  unfold App.createBranch
  cases f.type
  · simp only
    split
    · left; rfl
    · right
      simp [Running.new, Running.calcPace]
  · simp only
    split
    · left; rfl
    · right
      simp [Cycling.new, Cycling.calcSpeed]

/-- The ids after one action: unchanged, or extended at the end by the id made from the
clock reading of the submit, or that id followed by all former ids but the first. -/
theorem step_ids (s : AppState) (a : Action) :
    (App.step s a).workouts.map Workout.id = s.workouts.map Workout.id ∨
      ∃ f clk, a = Action.submit f clk ∧
        ((App.step s a).workouts.map Workout.id
            = s.workouts.map Workout.id ++ [Workout.newId clk.now] ∨
          (App.step s a).workouts.map Workout.id
            = Workout.newId clk.now :: (s.workouts.map Workout.id).tail) := by
  cases a with
  | edit id =>
    left
    simp only [App.step, App._editWorkout]
    split <;> rfl
  | submit f clk =>
    by_cases ht : truthyId s.editingWorkoutId = true
    · have hnw : App._newWorkout s f clk
          = App.editBranch s (s.editingWorkoutId.getD "") f clk := by
        simp [App._newWorkout, ht]
      cases he : App.editBranch s (s.editingWorkoutId.getD "") f clk with
      | error e =>
        left
        simp only [App.step, hnw, he]
      | ok s' =>
        simp only [App.step, hnw, he]
        rcases editBranch_ids s s' _ f clk he with h | h
        · left; exact h
        · right; exact ⟨f, clk, rfl, Or.inr h⟩
    · have hnw : App._newWorkout s f clk = Except.ok (App.createBranch s f clk) := by
        simp [App._newWorkout, ht]
      simp only [App.step, hnw]
      rcases createBranch_ids s f clk with h | h
      · left; exact h
      · right; exact ⟨f, clk, rfl, Or.inl h⟩

/-- Two clock readings that differ modulo `10 ^ 10` give different ids. -/
theorem newId_ne_of_mod_ne (a t : Nat) (h : a % 10 ^ 10 ≠ t % 10 ^ 10) :
    Workout.newId a ≠ Workout.newId t :=
  fun heq => h (newId_eq_mod a t heq)

/-- In the creating branch, a submit that calls no constructor returns the state as it
was. -/
theorem createBranch_of_not_constructs (s : AppState) (f : Form) (clk : Clock)
    (ht : truthyId s.editingWorkoutId = false) (h : App.constructs s f = false) :
    App.createBranch s f clk = s := by
  unfold App.constructs at h
  rw [ht] at h
  unfold App.createBranch
  cases hty : f.type
  · rw [hty] at h
    simp only [Bool.false_eq_true, if_false, Bool.not_eq_false'] at h
    simp only [h, if_true]
  · rw [hty] at h
    simp only [Bool.false_eq_true, if_false, Bool.not_eq_false'] at h
    simp only [h, if_true]

/-- In the editing branch, a submit that calls no constructor has one result whatever the
clock shows: it throws, or it stores the object with the assigned inputs in its slot and
clears the edit marker. -/
theorem editBranch_of_not_constructs (s : AppState) (f : Form)
    (ht : truthyId s.editingWorkoutId = true) (h : App.constructs s f = false) :
    ∃ r, (∀ clk, App.editBranch s (s.editingWorkoutId.getD "") f clk = r) ∧
      (r = Except.error JSError.typeError ∨
        ∃ i w, s.workouts[i]? = some w ∧
          r = Except.ok { s with workouts := s.workouts.set i (App.assignInputs w f),
                                 editingWorkoutId := none }) := by
  unfold App.constructs at h
  rw [ht] at h
  simp only [if_true] at h
  unfold App.editBranch
  cases hf : findSlot (fun workout => workout.id == s.editingWorkoutId.getD "") s.workouts with
  | none => exact ⟨_, fun _ => rfl, Or.inl rfl⟩
  | some r =>
    obtain ⟨i, w⟩ := r
    rw [hf] at h
    simp only at h
    refine ⟨_, fun clk => ?_, Or.inr ⟨i, w, findSlot_getElem _ _ _ _ hf, rfl⟩⟩
    simp only [h, Bool.false_eq_true, if_false]

/-- A submit that calls no constructor gives the same state whatever the clock shows. -/
theorem step_clock_irrelevant (s : AppState) (f : Form) (clk clk' : Clock)
    (h : App.constructs s f = false) :
    App.step s (Action.submit f clk) = App.step s (Action.submit f clk') := by
  by_cases ht : truthyId s.editingWorkoutId = true
  · obtain ⟨r, hr, _⟩ := editBranch_of_not_constructs s f ht h
    simp only [App.step, App._newWorkout, ht, if_true, hr]
  · have ht2 : truthyId s.editingWorkoutId = false := by simpa using ht
    simp only [App.step, App._newWorkout, ht2, Bool.false_eq_true, if_false,
      createBranch_of_not_constructs s f clk ht2 h, createBranch_of_not_constructs s f clk' ht2 h]

/-- A submit that calls no constructor leaves the ids as they were. -/
theorem step_ids_of_not_constructs (s : AppState) (f : Form) (clk : Clock)
    (h : App.constructs s f = false) :
    (App.step s (Action.submit f clk)).workouts.map Workout.id
      = s.workouts.map Workout.id := by
  by_cases ht : truthyId s.editingWorkoutId = true
  · obtain ⟨r, hr, hcase⟩ := editBranch_of_not_constructs s f ht h
    simp only [App.step, App._newWorkout, ht, if_true, hr]
    rcases hcase with h1 | ⟨i, w, hget, h1⟩
    · rw [h1]
    · rw [h1]
      exact map_id_set s.workouts i w (App.assignInputs w f) hget (assignInputs_id w f)
  · have ht2 : truthyId s.editingWorkoutId = false := by simpa using ht
    simp only [App.step, App._newWorkout, ht2, Bool.false_eq_true, if_false,
      createBranch_of_not_constructs s f clk ht2 h]

/-- A submit that calls a constructor stores a record whose id is made from the clock
reading of the submit. -/
theorem step_id_of_constructs (s : AppState) (f : Form) (clk : Clock)
    (h : App.constructs s f = true) :
    Workout.newId clk.now ∈ (App.step s (Action.submit f clk)).workouts.map Workout.id := by
  unfold App.constructs at h
  by_cases ht : truthyId s.editingWorkoutId = true
  · rw [ht] at h
    simp only [if_true] at h
    simp only [App.step, App._newWorkout, ht, if_true, App.editBranch]
    cases hf : findSlot (fun workout => workout.id == s.editingWorkoutId.getD "") s.workouts with
    | none => simp [hf] at h
    | some r =>
      obtain ⟨i, w⟩ := r
      rw [hf] at h
      simp only at h
      simp only [h, if_true, splice_obj_one, List.map_cons, constructForType_id]
      exact List.mem_cons_self _ _
  · have ht2 : truthyId s.editingWorkoutId = false := by simpa using ht
    rw [ht2] at h
    simp only [App.step, App._newWorkout, ht2, Bool.false_eq_true, if_false, App.createBranch]
    cases hty : f.type
    · rw [hty] at h
      simp only [Bool.false_eq_true, if_false, Bool.not_eq_true'] at h
      simp only [h, Bool.false_eq_true, if_false, List.map_append, List.map_cons, List.map_nil]
      exact List.mem_append_right _ (List.mem_singleton.mpr rfl)
    · rw [hty] at h
      simp only [Bool.false_eq_true, if_false, Bool.not_eq_true'] at h
      simp only [h, Bool.false_eq_true, if_false, List.map_append, List.map_cons, List.map_nil]
      exact List.mem_append_right _ (List.mem_singleton.mpr rfl)

/-- The construction readings of a run, split at its first action: nothing for a click on an
edit button or a submit that constructs nothing, the reading of the submit otherwise. -/
theorem constructionReadings_cons (s : AppState) (a : Action) (actions : List Action) :
    constructionReadings s (a :: actions)
      = constructionReadings s [a] ++ constructionReadings (App.step s a) actions := by
  cases a <;> simp [constructionReadings]

/-- A list of ids without repetition, all made from earlier construction readings, stays so
after one action whose construction reading differs modulo `10 ^ 10` from the earlier
ones. -/
theorem step_ids_nodup (s : AppState) (a : Action) (T : List Nat)
    (hnd : (s.workouts.map Workout.id).Nodup)
    (hfrom : ∀ x ∈ s.workouts.map Workout.id, ∃ r ∈ T, x = Workout.newId r)
    (hclk : ∀ t ∈ constructionReadings s [a], ∀ r ∈ T, r % 10 ^ 10 ≠ t % 10 ^ 10) :
    ((App.step s a).workouts.map Workout.id).Nodup ∧
      ∀ x ∈ (App.step s a).workouts.map Workout.id,
        ∃ r ∈ constructionReadings s [a] ++ T, x = Workout.newId r := by
  have hkeep : (App.step s a).workouts.map Workout.id = s.workouts.map Workout.id →
      ((App.step s a).workouts.map Workout.id).Nodup ∧
        ∀ x ∈ (App.step s a).workouts.map Workout.id,
          ∃ r ∈ constructionReadings s [a] ++ T, x = Workout.newId r := by
    intro h
    rw [h]
    refine ⟨hnd, fun x hx => ?_⟩
    obtain ⟨r, hr, rfl⟩ := hfrom x hx
    exact ⟨r, List.mem_append_right _ hr, rfl⟩
  rcases step_ids s a with h | ⟨f, clk, rfl, h⟩
  · exact hkeep h
  · by_cases hc : App.constructs s f = true
    · have hmem : clk.now ∈ constructionReadings s [Action.submit f clk] := by
        simp [constructionReadings, hc]
      have hfresh : Workout.newId clk.now ∉ s.workouts.map Workout.id := by
        intro hx
        obtain ⟨r, hr, heq⟩ := hfrom _ hx
        exact newId_ne_of_mod_ne r clk.now (hclk clk.now hmem r hr) heq.symm
      have hsub : ∀ x ∈ (s.workouts.map Workout.id).tail, x ∈ s.workouts.map Workout.id :=
        fun x hx => List.mem_of_mem_tail hx
      rcases h with h | h
      · rw [h]
        constructor
        · rw [List.nodup_append]
          refine ⟨hnd, List.nodup_singleton _, ?_⟩
          intro x hx hx2
          rw [List.mem_singleton] at hx2
          subst hx2
          exact hfresh hx
        · intro x hx
          rw [List.mem_append, List.mem_singleton] at hx
          rcases hx with hx | rfl
          · obtain ⟨r, hr, rfl⟩ := hfrom x hx
            exact ⟨r, List.mem_append_right _ hr, rfl⟩
          · exact ⟨clk.now, List.mem_append_left _ hmem, rfl⟩
      · rw [h]
        constructor
        · rw [List.nodup_cons]
          exact ⟨fun hx => hfresh (hsub _ hx), hnd.sublist (List.tail_sublist _)⟩
        · intro x hx
          rw [List.mem_cons] at hx
          rcases hx with rfl | hx
          · exact ⟨clk.now, List.mem_append_left _ hmem, rfl⟩
          · obtain ⟨r, hr, rfl⟩ := hfrom x (hsub x hx)
            exact ⟨r, List.mem_append_right _ hr, rfl⟩
    · have hc2 : App.constructs s f = false := by simpa using hc
      exact hkeep (step_ids_of_not_constructs s f clk hc2)

/-- From a state whose ids are without repetition and made from earlier construction
readings, a run whose construction readings differ modulo `10 ^ 10` from one another and
from the earlier ones ends in a state whose ids are without repetition. -/
theorem run_ids_nodup_from (actions : List Action) :
    ∀ (s : AppState) (T : List Nat),
      (s.workouts.map Workout.id).Nodup →
      (∀ x ∈ s.workouts.map Workout.id, ∃ r ∈ T, x = Workout.newId r) →
      (∀ t ∈ constructionReadings s actions, ∀ r ∈ T, r % 10 ^ 10 ≠ t % 10 ^ 10) →
      (constructionReadings s actions).Pairwise (fun a b => a % 10 ^ 10 ≠ b % 10 ^ 10) →
      ((App.run s actions).workouts.map Workout.id).Nodup := by
  induction actions with
  | nil => intro s T hnd _ _ _; exact hnd
  | cons a actions ih =>
    intro s T hnd hfrom hclk hpw
    rw [constructionReadings_cons] at hclk hpw
    rw [List.pairwise_append] at hpw
    obtain ⟨_, hpw2, hcross⟩ := hpw
    have hstep := step_ids_nodup s a T hnd hfrom
      (fun t ht r hr => hclk t (List.mem_append_left _ ht) r hr)
    show ((App.run (App.step s a) actions).workouts.map Workout.id).Nodup
    refine ih (App.step s a) (constructionReadings s [a] ++ T) hstep.1 hstep.2 ?_ hpw2
    intro t ht r hr
    rw [List.mem_append] at hr
    rcases hr with hr | hr
    · exact hcross r hr t ht
    · exact hclk t (List.mem_append_right _ ht) r hr

/-- C10, evaluated on two runs from the empty array.  Two valid submits whose constructions
read the same clock value, a non-decreasing series, leave two records with the same id; so
do two valid submits whose constructions read values `10 ^ 10` ms apart. -/
theorem run_same_reading_repeats_id :
    constructionReadings AppState.init
        [Action.submit exFormRun exClockA, Action.submit exFormRun exClockA]
      = [1700000000001, 1700000000001] ∧
      (App.run AppState.init
          [Action.submit exFormRun exClockA, Action.submit exFormRun exClockA]).workouts.map
        Workout.id = ["0000000001", "0000000001"] ∧
      ¬ ((App.run AppState.init
          [Action.submit exFormRun exClockA, Action.submit exFormRun exClockA]).workouts.map
        Workout.id).Nodup ∧
      constructionReadings AppState.init
        [Action.submit exFormRun exClockA, Action.submit exFormRun exClockLate]
      = [1700000000001, 1710000000001] ∧
      ¬ ((App.run AppState.init
          [Action.submit exFormRun exClockA, Action.submit exFormRun exClockLate]).workouts.map
        Workout.id).Nodup := by
  refine ⟨by decide, by decide, by decide, by decide, by decide⟩

/-- C10 as amended: in every state reached from the empty array by form submits (creations
and edits, with or without a change of type) and clicks on edit buttons, no two records
have the same id, provided no two of the clock readings observed at the constructions agree
modulo `10 ^ 10`. -/
theorem run_ids_nodup (actions : List Action)
    (h : (constructionReadings AppState.init actions).Pairwise
      (fun a b => a % 10 ^ 10 ≠ b % 10 ^ 10)) :
    ((App.run AppState.init actions).workouts.map Workout.id).Nodup := by
  refine run_ids_nodup_from actions AppState.init [] ?_ ?_ ?_ h
  · exact List.nodup_nil
  · intro x hx
    simp [AppState.init] at hx
  · intro t _ r hr
    simp at hr

/-- C10 as amended, at a run of a creation, a rejected submit at the same clock reading, a
click on the edit button of the created record and a submit that changes its type more than
`10 ^ 10` ms later: the two construction readings differ modulo `10 ^ 10`. -/
theorem run_ids_nodup_witness :
    constructionReadings AppState.init
        [Action.submit exFormRun exClockA, Action.submit exFormBad exClockA,
          Action.edit "0000000001", Action.submit exFormCyc exClockLate2]
      = [1700000000001, 1710000000002] ∧
      ((App.run AppState.init
          [Action.submit exFormRun exClockA, Action.submit exFormBad exClockA,
            Action.edit "0000000001", Action.submit exFormCyc exClockLate2]).workouts.map
        Workout.id).Nodup :=
  ⟨by decide, run_ids_nodup _ (by decide)⟩

end Mapty
